import Mathlib

/-!
# Booze-Buddy: verification of the ingredient-matching and availability core

Shallow embedding of the cocktail-availability computation of `src/app.py`
(class `BoozeBuddy` and the surrounding FastAPI endpoints), together with
theorems settling the specification's claims about it.

The embedding follows the Python source:
* `pyLower` models `str.lower()` (per-character basic-latin lower-casing);
* `pyStrip` models `str.strip()`;
* `extractIngredients` models the `strIngredient1..15` / `strMeasure1..15`
  extraction loop that builds the insertion-ordered `ingredients` dict;
* `computeMissing` models the `missing = set(); missing.add(...)` loop;
* `api_request` models the caching HTTP wrapper, with a network oracle
  `net : ApiKey → Option ApiData` (`none` models a raised
  `requests.exceptions.RequestException`);
* `get_available_cocktails` / `get_available_cocktailsSt` are the pure and
  cache-threading forms of `BoozeBuddy.get_available_cocktails`;
* `rankCocktails` models `result.sort(key=lambda x: (not x["can_make"], x["name"]))`;
* `add_to_inventory`, `remove_from_inventory`, `add_common_ingredients`,
  `initialize_demo`, `get_current_inventory` model the inventory endpoints
  acting on a list-of-rows view of the `inventory` table.
-/

/-- Python's `str.lower()` as used by the source on ingredient names.
Per-character basic-latin lower-casing (the ingredient data in play is ASCII). -/
def pyLower (s : String) : String :=
  ⟨s.data.map Char.toLower⟩

/-- Python's `str.strip()` as used by the source on measure text:
drop whitespace from both ends. -/
def pyStrip (s : String) : String :=
  ⟨((s.data.dropWhile Char.isWhitespace).reverse.dropWhile Char.isWhitespace).reverse⟩

/-- One ingredient/measure slot pair of a recipe payload:
the values of `strIngredientI` and `strMeasureI` (`none` models JSON `null`
or a missing key, as read by `details.get(...)`). -/
abbrev Slot := Option String × Option String

/-- The measure stored for a slot:
`details.get(meas_key, "").strip() if details.get(meas_key) else ""`.
Python truthiness: `None` and `""` both take the `else` branch. -/
def measureOf : Option String → String
  | none => ""
  | some s => if s = "" then "" else pyStrip s

/-- Python dict assignment `d[k] = v` on an insertion-ordered association
list: an existing key keeps its position and gets the new value, a new key
is appended. -/
def dictInsert {α : Type} : List (String × α) → String → α → List (String × α)
  | [], k, v => [(k, v)]
  | (k0, v0) :: d, k, v =>
    if k0 = k then (k0, v) :: d else (k0, v0) :: dictInsert d k v

/-- The body of the loop over slots 1..15:
skip falsy ingredient entries (`null` / `""`), otherwise store
`ingredients[name.lower()] = measure`. -/
def extractStep (d : List (String × String)) (slot : Slot) : List (String × String) :=
  match slot.1 with
  | none => d
  | some raw => if raw = "" then d else dictInsert d (pyLower raw) (measureOf slot.2)

/-- The `ingredients` dict built by the loop over slots 1..15. -/
def extractIngredients (slots : List Slot) : List (String × String) :=
  slots.foldl extractStep []

/-- The body of the loop
`for ingredient_name in ingredients.keys(): if ingredient_name.lower() not in db_inventory: missing.add(ingredient_name)`. -/
def missingStep (db_inventory : List String) (missing : Finset String) (kv : String × String) :
    Finset String :=
  if pyLower kv.1 ∈ db_inventory then missing else insert kv.1 missing

/-- The `missing` set built by the membership loop.
A Python `set` is unordered and duplicate-free, so it is modelled as a `Finset`. -/
def computeMissing (db_inventory : List String) (ingredients : List (String × String)) :
    Finset String :=
  ingredients.foldl (missingStep db_inventory) ∅

/-- A recipe payload as returned by TheCocktailDB (the fields the source reads). -/
structure Drink where
  idDrink : String
  strDrink : String
  strDrinkThumb : String
  strInstructions : String
  strGlass : String
  slots : List Slot
deriving DecidableEq

/-- The per-cocktail record stored in the `available_cocktails` dict. -/
structure CocktailInfo where
  name : String
  image : String
  instructions : String
  glass : String
  ingredients : List (String × String)
  missing : Finset String
  can_make : Bool
deriving DecidableEq

/-- The evaluation of one recipe payload against an inventory
(`app.py` lines 464-490): extract the ingredients dict, compute the missing
set, and set `can_make = (len(missing) == 0)`. -/
def evaluateDrink (db_inventory : List String) (details : Drink) : CocktailInfo :=
  let ingredients := extractIngredients details.slots
  let missing := computeMissing db_inventory ingredients
  { name := details.strDrink
    image := details.strDrinkThumb
    instructions := details.strInstructions
    glass := details.strGlass
    ingredients := ingredients
    missing := missing
    can_make := missing.card == 0 }

/-! ## The Recipe Source Adapter and the caching request wrapper -/

/-- The request signature used as the cache key in `api_request`
(`endpoint + json.dumps(params)`): the three endpoints the source calls,
each with its single parameter. Distinct constructors model the distinct
key strings they produce. -/
inductive ApiKey where
  | filterByIngredient (i : String)
  | lookupById (i : String)
  | searchByName (s : String)
deriving DecidableEq

/-- The JSON body returned by TheCocktailDB: an object with a `drinks`
field that is either `null` or a list of drink objects. -/
structure ApiData where
  drinks : Option (List Drink)
deriving DecidableEq

/-- The network, as an oracle from request signature to response;
`none` models a raised `requests.exceptions.RequestException`
(connection error or non-2xx status via `raise_for_status`). -/
abbrev Net := ApiKey → Option ApiData

/-- `self.api_cache`, keyed by request signature. -/
abbrev Cache := List (ApiKey × ApiData)

def cacheFind : Cache → ApiKey → Option ApiData
  | [], _ => none
  | (k0, d) :: c, k => if k0 = k then some d else cacheFind c k

/-- `BoozeBuddy.api_request`: return a cached response if present;
otherwise perform the request, caching a successful response and
degrading a failed one to `{"drinks": None}` (not cached). -/
def api_request (net : Net) (cache : Cache) (key : ApiKey) : ApiData × Cache :=
  match cacheFind cache key with
  | some data => (data, cache)
  | none =>
    match net key with
    | some data => (data, (key, data) :: cache)
    | none => (⟨none⟩, cache)

/-- The response `api_request` produces for a key, as a pure function of
the network alone (what a run from any coherent cache returns). -/
def netData (net : Net) (key : ApiKey) : ApiData :=
  match net key with
  | some data => data
  | none => ⟨none⟩

/-- `BoozeBuddy.search_cocktails_by_ingredient`, pure form: empty list when
`drinks` is `null` (adapter failure or no result). A `drinks` value of `[]`
is also falsy in Python and also yields `[]`, which coincides. -/
def search_cocktails_by_ingredient (net : Net) (ingredient : String) : List Drink :=
  match (netData net (ApiKey.filterByIngredient ingredient)).drinks with
  | none => []
  | some drinks => drinks

/-- `BoozeBuddy.get_cocktail_details`, pure form: `None` when `drinks` is
`null` or empty (falsy), otherwise the first element. -/
def get_cocktail_details (net : Net) (cocktail_id : String) : Option Drink :=
  match (netData net (ApiKey.lookupById cocktail_id)).drinks with
  | some (d :: _) => some d
  | _ => none

/-! ## The Cocktail Aggregator -/

/-- The body of the inner loop of `get_available_cocktails`: skip a
cocktail id already in the dict, fetch details, skip on `None`, otherwise
append the evaluated entry. -/
def processDrink (net : Net) (db_inventory : List String)
    (acc : List (String × CocktailInfo)) (cocktail : Drink) :
    List (String × CocktailInfo) :=
  if cocktail.idDrink ∈ acc.map Prod.fst then acc
  else
    match get_cocktail_details net cocktail.idDrink with
    | none => acc
    | some details => acc ++ [(cocktail.idDrink, evaluateDrink db_inventory details)]

/-- The body of the outer loop of `get_available_cocktails`: search by one
inventory ingredient and process each returned cocktail stub. -/
def ingredientStep (net : Net) (db_inventory : List String)
    (acc : List (String × CocktailInfo)) (ingredient : String) :
    List (String × CocktailInfo) :=
  (search_cocktails_by_ingredient net ingredient).foldl (processDrink net db_inventory) acc

/-- `BoozeBuddy.get_available_cocktails`, pure form (the insertion-ordered
result dict as an association list). -/
def get_available_cocktails (net : Net) (db_inventory : List String) :
    List (String × CocktailInfo) :=
  if db_inventory = [] then []
  else db_inventory.foldl (ingredientStep net db_inventory) []

/-- `search_cocktails_by_ingredient`, threading the response cache. -/
def searchSt (net : Net) (cache : Cache) (ingredient : String) : List Drink × Cache :=
  (match (api_request net cache (ApiKey.filterByIngredient ingredient)).1.drinks with
   | none => []
   | some drinks => drinks,
   (api_request net cache (ApiKey.filterByIngredient ingredient)).2)

/-- `get_cocktail_details`, threading the response cache. -/
def detailsSt (net : Net) (cache : Cache) (cocktail_id : String) : Option Drink × Cache :=
  (match (api_request net cache (ApiKey.lookupById cocktail_id)).1.drinks with
   | some (d :: _) => some d
   | _ => none,
   (api_request net cache (ApiKey.lookupById cocktail_id)).2)

/-- The inner loop body, threading the response cache. -/
def processDrinkSt (net : Net) (db_inventory : List String)
    (st : List (String × CocktailInfo) × Cache) (cocktail : Drink) :
    List (String × CocktailInfo) × Cache :=
  if cocktail.idDrink ∈ st.1.map Prod.fst then st
  else
    match (detailsSt net st.2 cocktail.idDrink).1 with
    | none => (st.1, (detailsSt net st.2 cocktail.idDrink).2)
    | some details =>
      (st.1 ++ [(cocktail.idDrink, evaluateDrink db_inventory details)],
       (detailsSt net st.2 cocktail.idDrink).2)

/-- The outer loop body, threading the response cache. -/
def ingredientStepSt (net : Net) (db_inventory : List String)
    (st : List (String × CocktailInfo) × Cache) (ingredient : String) :
    List (String × CocktailInfo) × Cache :=
  (searchSt net st.2 ingredient).1.foldl (processDrinkSt net db_inventory)
    (st.1, (searchSt net st.2 ingredient).2)

/-- `BoozeBuddy.get_available_cocktails` with the `self.api_cache` state
threaded explicitly (the form the running process executes). -/
def get_available_cocktailsSt (net : Net) (cache : Cache) (db_inventory : List String) :
    List (String × CocktailInfo) × Cache :=
  if db_inventory = [] then ([], cache)
  else db_inventory.foldl (ingredientStepSt net db_inventory) ([], cache)

/-- A cache is coherent with the network when every cached response is what
the network currently returns for that key ("no intervening adapter-data
change" since the entry was stored). -/
def Coherent (net : Net) (cache : Cache) : Prop :=
  ∀ k d, cacheFind cache k = some d → net k = some d

/-- `BoozeBuddy.find_cocktails_by_spirit`, pure form. No membership skip
here: the source overwrites `spirit_cocktails[cocktail_id]` on a duplicate
stub, which dict assignment models. -/
def find_cocktails_by_spirit (net : Net) (spirit : String) (db_inventory : List String) :
    List (String × CocktailInfo) :=
  (search_cocktails_by_ingredient net spirit).foldl
    (fun acc cocktail =>
      match get_cocktail_details net cocktail.idDrink with
      | none => acc
      | some details => dictInsert acc cocktail.idDrink (evaluateDrink db_inventory details))
    []

/-- `BoozeBuddy.search_cocktails_by_name`, pure form: the search response
already carries the full payloads, no second lookup. -/
def search_cocktails_by_nameAgg (net : Net) (name : String) (db_inventory : List String) :
    List (String × CocktailInfo) :=
  match (netData net (ApiKey.searchByName name)).drinks with
  | none => []
  | some drinks =>
    drinks.foldl
      (fun acc drink => dictInsert acc drink.idDrink (evaluateDrink db_inventory drink))
      []

/-! ## The response conversion and ranking of the endpoints -/

/-- Lexicographic code-point comparison of character sequences, the way
Python compares strings with `<`: the first differing position decides by
code point; a strict prefix is smaller. -/
def pyStrLtChars : List Char → List Char → Bool
  | [], [] => false
  | [], _ :: _ => true
  | _ :: _, [] => false
  | a :: as, b :: bs => if a = b then pyStrLtChars as bs else decide (a.toNat < b.toNat)

/-- Python's `a < b` on strings. -/
def pyStrLt (a b : String) : Bool :=
  pyStrLtChars a.data b.data

/-- Python's `a <= b` on strings. -/
def pyStrLe (a b : String) : Bool :=
  !pyStrLt b a

/-- One element of the `result` list the endpoints build before sorting. -/
structure RankedCocktail where
  id : String
  name : String
  instructions : String
  image_url : String
  glass : String
  ingredients : List (String × String)
  can_make : Bool
  missing : Finset String
deriving DecidableEq

/-- The response-format conversion loop of the endpoints
(`for id, info in cocktails.items(): result.append({...})`). -/
def toResponse (cocktails : List (String × CocktailInfo)) : List RankedCocktail :=
  cocktails.map (fun x =>
    { id := x.1
      name := x.2.name
      instructions := x.2.instructions
      image_url := x.2.image
      glass := x.2.glass
      ingredients := x.2.ingredients
      can_make := x.2.can_make
      missing := x.2.missing })

/-- The comparison realised by
`result.sort(key=lambda x: (not x["can_make"], x["name"]))`:
`a` may come before `b` iff `(not a.can_make, a.name) ≤ (not b.can_make, b.name)`
in the lexicographic tuple order (`False < True` on booleans, code-point
order on names). -/
def rankLE (a b : RankedCocktail) : Bool :=
  if a.can_make = b.can_make then pyStrLe a.name b.name else a.can_make

/-- `rankLE` as a relation. -/
def RankLe (a b : RankedCocktail) : Prop :=
  rankLE a b = true

instance : DecidableRel RankLe :=
  fun a b => instDecidableEqBool (rankLE a b) true

/-- The in-place stable sort `result.sort(key=...)` of the endpoints.
Python's sort is the stable sort by the key above; a stable sort by a total
preorder is extensionally unique, so the structurally recursive stable
`insertionSort` realises it. -/
def rankCocktails (result : List RankedCocktail) : List RankedCocktail :=
  result.insertionSort RankLe

/-- The `/cocktails/available/` endpoint body after the inventory query. -/
def available_endpoint (net : Net) (db_inventory : List String) : List RankedCocktail :=
  rankCocktails (toResponse (get_available_cocktails net db_inventory))

/-- The `/cocktails/by-spirit/{spirit}` endpoint body after the inventory
query (the spirit is lower-cased at the call site). -/
def by_spirit_endpoint (net : Net) (spirit : String) (db_inventory : List String) :
    List RankedCocktail :=
  rankCocktails (toResponse (find_cocktails_by_spirit net (pyLower spirit) db_inventory))

/-- The `/cocktails/search/` endpoint body after the inventory query. -/
def search_endpoint (net : Net) (query : String) (db_inventory : List String) :
    List RankedCocktail :=
  rankCocktails (toResponse (search_cocktails_by_nameAgg net query db_inventory))

/-! ## The Inventory Store endpoints -/

/-- One row of the `inventory` table as the endpoints use it. -/
structure InventoryRow where
  name : String
  user_id : Nat
deriving DecidableEq

abbrev Store := List InventoryRow

/-- `get_current_inventory(db, user_id)` with a user id: the names of the
rows belonging to that user. -/
def get_current_inventory (db : Store) (user_id : Nat) : List String :=
  (db.filter (fun item => item.user_id == user_id)).map (fun item => item.name)

/-- The `POST /inventory/` endpoint: insert `item.name.lower()` for the
user unless an identical row already exists. -/
def add_to_inventory (db : Store) (user_id : Nat) (name : String) : Store :=
  if db.any (fun item => item.name == pyLower name && item.user_id == user_id) then db
  else db ++ [⟨pyLower name, user_id⟩]

/-- The `POST /inventory/add-common/` endpoint: the same insert-if-absent
body, once per posted item. -/
def add_common_ingredients (db : Store) (user_id : Nat) (items : List String) : Store :=
  items.foldl (fun db item_name => add_to_inventory db user_id item_name) db

/-- Deletion of the first matching row (`query(...).first()` then `delete`). -/
def removeFirst : Store → (InventoryRow → Bool) → Store
  | [], _ => []
  | x :: xs, p => if p x then xs else x :: removeFirst xs p

/-- The `DELETE /inventory/{item_name}` endpoint: lower-case the argument,
then delete the first row of this user with that name, if any. -/
def remove_from_inventory (db : Store) (user_id : Nat) (item_name : String) : Store :=
  removeFirst db (fun item => item.name == pyLower item_name && item.user_id == user_id)

/-- The demo item list of `POST /demo/initialize/`. -/
def demo_items : List String :=
  ["vodka", "gin", "rum", "tequila", "triple sec",
   "lime juice", "simple syrup", "orange juice", "cranberry juice"]

/-- The `POST /demo/initialize/` endpoint: drop all rows of the user, then
insert `item_name.lower()` for each demo item. -/
def initialize_demo (db : Store) (user_id : Nat) : Store :=
  (db.filter (fun item => item.user_id != user_id))
    ++ demo_items.map (fun item_name => ⟨pyLower item_name, user_id⟩)

/-- The stores reachable from an empty table through the mutating
endpoints (a user's inventory is created empty). -/
inductive ReachableStore : Store → Prop where
  | empty : ReachableStore []
  | add {db uid name} (h : ReachableStore db) : ReachableStore (add_to_inventory db uid name)
  | addCommon {db uid items} (h : ReachableStore db) :
      ReachableStore (add_common_ingredients db uid items)
  | remove {db uid name} (h : ReachableStore db) :
      ReachableStore (remove_from_inventory db uid name)
  | demo {db uid} (h : ReachableStore db) : ReachableStore (initialize_demo db uid)

/-! ## Spec-side definition for the refinement comparison of the missing list -/

/-- The recipe's original ingredient sequence (normalized names of the
present slots, in presentation order, duplicates kept). -/
def slotNames (slots : List Slot) : List String :=
  slots.filterMap (fun slot =>
    match slot.1 with
    | none => none
    | some raw => if raw = "" then none else some (pyLower raw))

/-- The spec's description of the missing collection, written from its
words: "the ordered subsequence of ingredients failing that test,
preserving the recipe's original ingredient order" — iterate the slots in
order, normalize each present name, and keep those absent from the
inventory, in order. -/
def specMissingSeq (db_inventory : List String) (slots : List Slot) : List String :=
  (slotNames slots).filter (fun k => !decide (k ∈ db_inventory))

/-! ## Example fixtures used by single claims -/

/-- A small drink payload: the Daiquiri, reachable via both "lime juice"
and "rum" in the deduplication scenario. -/
def drinkDaiquiri : Drink :=
  { idDrink := "11006"
    strDrink := "Daiquiri"
    strDrinkThumb := "daiquiri.jpg"
    strInstructions := "Shake."
    strGlass := "Cocktail glass"
    slots := [(some "Rum", some "2 oz"), (some "Lime juice", some "1 oz")] }

/-- Adapter oracle for the deduplication scenario of `available`:
both ingredient filters list the same drink. -/
def exNetDedup : Net := fun k =>
  match k with
  | ApiKey.filterByIngredient i =>
    if i = "lime juice" ∨ i = "rum" then some ⟨some [drinkDaiquiri]⟩ else some ⟨none⟩
  | ApiKey.lookupById i =>
    if i = "11006" then some ⟨some [drinkDaiquiri]⟩ else some ⟨none⟩
  | ApiKey.searchByName _ => some ⟨none⟩

/-- A drink only reachable via "rum" in the resilience scenario. -/
def drinkMojito : Drink :=
  { idDrink := "11000"
    strDrink := "Mojito"
    strDrinkThumb := "mojito.jpg"
    strInstructions := "Muddle."
    strGlass := "Highball glass"
    slots := [(some "Rum", some "2 oz")] }

/-- Adapter oracle for the resilience scenario: the filter request for
"gin" raises, the one for "rum" succeeds. -/
def exNetGinFails : Net := fun k =>
  match k with
  | ApiKey.filterByIngredient i =>
    if i = "gin" then none
    else if i = "rum" then some ⟨some [drinkMojito]⟩ else some ⟨none⟩
  | ApiKey.lookupById i =>
    if i = "11000" then some ⟨some [drinkMojito]⟩ else some ⟨none⟩
  | ApiKey.searchByName _ => some ⟨none⟩

/-- Adapter oracle for the absent-details scenario: the filter for "rum"
lists drink "99999" but its detail lookup returns `{"drinks": null}`. -/
def exNetAbsent : Net := fun k =>
  match k with
  | ApiKey.filterByIngredient i =>
    if i = "rum" then
      some ⟨some [{ idDrink := "99999", strDrink := "Ghost", strDrinkThumb := ""
                    strInstructions := "", strGlass := "", slots := [] }]⟩
    else some ⟨none⟩
  | ApiKey.lookupById _ => some ⟨none⟩
  | ApiKey.searchByName _ => some ⟨none⟩

/-- A payload listing the same normalized ingredient name in two slots. -/
def drinkDupGin : Drink :=
  { idDrink := "4"
    strDrink := "Dup"
    strDrinkThumb := ""
    strInstructions := ""
    strGlass := ""
    slots := [(some "Gin", some ""), (some "GIN", some "")] }

/-- Adapter oracle for the idempotence witness. -/
def exNetIdem : Net := fun k =>
  match k with
  | ApiKey.filterByIngredient i =>
    if i = "rum" then some ⟨some [drinkMojito]⟩ else some ⟨none⟩
  | ApiKey.lookupById i =>
    if i = "11000" then some ⟨some [drinkMojito]⟩ else some ⟨none⟩
  | ApiKey.searchByName _ => some ⟨none⟩

/-! ## Basic lemmas about the normalizer and the extraction loop -/

theorem Char_toNat_ofNat_of_lt {n : Nat} (h : n < 55296) : (Char.ofNat n).toNat = n := by
  have hv : n.isValidChar := Or.inl h
  simp [Char.ofNat, hv, Char.ofNatAux, Char.toNat, UInt32.toNat, BitVec.toNat_ofNatLt]

theorem Char_toLower_toLower (c : Char) : c.toLower.toLower = c.toLower := by
  unfold Char.toLower
  by_cases h : c.toNat ≥ 65 ∧ c.toNat ≤ 90
  · rw [if_pos h]
    have h2 : (Char.ofNat (c.toNat + 32)).toNat = c.toNat + 32 :=
      Char_toNat_ofNat_of_lt (by omega)
    rw [if_neg]
    rw [h2]
    omega
  · rw [if_neg h, if_neg h]

theorem pyLower_pyLower (s : String) : pyLower (pyLower s) = pyLower s := by
  unfold pyLower
  show String.mk ((s.data.map Char.toLower).map Char.toLower) = String.mk (s.data.map Char.toLower)
  rw [List.map_map]
  congr 1
  apply List.map_congr_left
  intro a _
  exact Char_toLower_toLower a

theorem dictInsert_keys (d : List (String × String)) (k v : String) :
    (dictInsert d k v).map Prod.fst
      = if k ∈ d.map Prod.fst then d.map Prod.fst else d.map Prod.fst ++ [k] := by
  induction d with
  | nil => simp [dictInsert]
  | cons hd tl ih =>
    obtain ⟨k0, v0⟩ := hd
    by_cases hk : k0 = k
    · subst hk
      simp [dictInsert]
    · have hk2 : ¬ k = k0 := fun h => hk h.symm
      simp only [dictInsert, if_neg hk, List.map_cons, ih, List.mem_cons]
      by_cases hmem : k ∈ tl.map Prod.fst
      · rw [if_pos hmem, if_pos (Or.inr hmem)]
      · rw [if_neg hmem, if_neg (by rintro (h | h) <;> [exact hk2 h; exact hmem h])]
        rfl

/-- A list property preserved by `extractStep` holds for the whole extraction fold. -/
theorem foldl_extractStep_preserve {P : List (String × String) → Prop}
    (hstep : ∀ d slot, P d → P (extractStep d slot)) :
    ∀ (slots : List Slot) (d : List (String × String)), P d → P (slots.foldl extractStep d)
  | [], _, hd => hd
  | _ :: slots, d, hd => foldl_extractStep_preserve hstep slots _ (hstep d _ hd)

theorem extractStep_keys_lowered {d : List (String × String)} (slot : Slot)
    (hd : ∀ k ∈ d.map Prod.fst, pyLower k = k) :
    ∀ k ∈ (extractStep d slot).map Prod.fst, pyLower k = k := by
  unfold extractStep
  match slot with
  | (none, m) => exact hd
  | (some raw, m) =>
    by_cases hraw : raw = ""
    · simpa [hraw] using hd
    · simp only [hraw, if_neg, ite_false]
      intro k hk
      rw [dictInsert_keys] at hk
      by_cases hmem : pyLower raw ∈ d.map Prod.fst
      · rw [if_pos hmem] at hk
        exact hd k hk
      · rw [if_neg hmem] at hk
        rcases List.mem_append.1 hk with h | h
        · exact hd k h
        · rcases List.mem_singleton.1 h with rfl
          exact pyLower_pyLower raw

theorem extractStep_keys_nodup {d : List (String × String)} (slot : Slot)
    (hd : (d.map Prod.fst).Nodup) : ((extractStep d slot).map Prod.fst).Nodup := by
  unfold extractStep
  match slot with
  | (none, m) => exact hd
  | (some raw, m) =>
    by_cases hraw : raw = ""
    · simpa [hraw] using hd
    · simp only [hraw, if_neg, ite_false]
      rw [dictInsert_keys]
      by_cases hmem : pyLower raw ∈ d.map Prod.fst
      · rw [if_pos hmem]; exact hd
      · rw [if_neg hmem]
        refine List.Nodup.append hd (List.nodup_singleton _) ?_
        intro a ha hb
        rcases List.mem_singleton.1 hb with rfl
        exact hmem ha

theorem extractIngredients_keys_lowered (slots : List Slot) :
    ∀ k ∈ (extractIngredients slots).map Prod.fst, pyLower k = k :=
  foldl_extractStep_preserve (P := fun d => ∀ k ∈ d.map Prod.fst, pyLower k = k)
    (fun _ slot hd => extractStep_keys_lowered slot hd) slots []
    (by simp)

theorem extractIngredients_keys_nodup (slots : List Slot) :
    ((extractIngredients slots).map Prod.fst).Nodup :=
  foldl_extractStep_preserve (P := fun d => (d.map Prod.fst).Nodup)
    (fun _ slot hd => extractStep_keys_nodup slot hd) slots []
    (by simp)

theorem computeMissing_loop (db_inventory : List String) :
    ∀ (ing : List (String × String)) (acc : Finset String),
      ing.foldl (missingStep db_inventory) acc
        = acc ∪ ((ing.map Prod.fst).filter
            (fun k => !decide (pyLower k ∈ db_inventory))).toFinset
  | [], acc => by simp
  | kv :: ing, acc => by
    rw [List.foldl_cons, computeMissing_loop db_inventory ing]
    by_cases h : pyLower kv.1 ∈ db_inventory
    · simp [missingStep, h]
    · simp [missingStep, h, List.filter_cons, Finset.union_insert]

theorem computeMissing_eq (db_inventory : List String) (ing : List (String × String)) :
    computeMissing db_inventory ing
      = ((ing.map Prod.fst).filter (fun k => !decide (pyLower k ∈ db_inventory))).toFinset := by
  rw [computeMissing, computeMissing_loop]
  simp

theorem computeMissing_empty_iff (db_inventory : List String) (ing : List (String × String)) :
    computeMissing db_inventory ing = ∅ ↔ ∀ k ∈ ing.map Prod.fst, pyLower k ∈ db_inventory := by
  rw [computeMissing_eq, List.toFinset_eq_empty_iff, List.filter_eq_nil_iff]
  simp

/-! ## Lemmas about the ranking order -/

theorem Char_eq_of_toNat_eq {a b : Char} (h : a.toNat = b.toNat) : a = b :=
  Char.ext (UInt32.toNat.inj h)

theorem pyStrLtChars_irrefl : ∀ l : List Char, pyStrLtChars l l = false
  | [] => rfl
  | a :: as => by simp [pyStrLtChars, pyStrLtChars_irrefl as]

theorem pyStrLtChars_trans : ∀ (l1 l2 l3 : List Char),
    pyStrLtChars l1 l2 = true → pyStrLtChars l2 l3 = true → pyStrLtChars l1 l3 = true := by
  intro l1
  induction l1 with
  | nil =>
    intro l2 l3 h12 h23
    cases l2 with
    | nil => simp [pyStrLtChars] at h12
    | cons b bs =>
      cases l3 with
      | nil => simp [pyStrLtChars] at h23
      | cons c cs => simp [pyStrLtChars]
  | cons a as ih =>
    intro l2 l3 h12 h23
    cases l2 with
    | nil => simp [pyStrLtChars] at h12
    | cons b bs =>
      cases l3 with
      | nil => simp [pyStrLtChars] at h23
      | cons c cs =>
        simp only [pyStrLtChars] at h12 h23 ⊢
        by_cases hab : a = b
        · subst hab
          rw [if_pos rfl] at h12
          by_cases hac : a = c
          · subst hac
            rw [if_pos rfl] at h23 ⊢
            exact ih bs cs h12 h23
          · rw [if_neg hac] at h23 ⊢
            exact h23
        · rw [if_neg hab, decide_eq_true_eq] at h12
          by_cases hbc : b = c
          · subst hbc
            rw [if_neg hab, decide_eq_true_eq]
            exact h12
          · rw [if_neg hbc, decide_eq_true_eq] at h23
            have hac : ¬ a = c := by
              intro h
              subst h
              omega
            rw [if_neg hac, decide_eq_true_eq]
            omega

theorem pyStrLtChars_tri : ∀ (l1 l2 : List Char),
    pyStrLtChars l1 l2 = true ∨ pyStrLtChars l2 l1 = true ∨ l1 = l2 := by
  intro l1
  induction l1 with
  | nil =>
    intro l2
    cases l2 with
    | nil => right; right; rfl
    | cons b bs => left; simp [pyStrLtChars]
  | cons a as ih =>
    intro l2
    cases l2 with
    | nil => right; left; simp [pyStrLtChars]
    | cons b bs =>
      by_cases hab : a = b
      · subst hab
        rcases ih bs with h | h | h
        · left; simp [pyStrLtChars, h]
        · right; left; simp [pyStrLtChars, h]
        · right; right; rw [h]
      · rcases Nat.lt_trichotomy a.toNat b.toNat with h | h | h
        · left; simp [pyStrLtChars, hab, h]
        · exact absurd (Char_eq_of_toNat_eq h) hab
        · right; left
          have hba : ¬ b = a := fun hh => hab hh.symm
          simp [pyStrLtChars, hba, h]

theorem pyStrLtChars_asymm {l1 l2 : List Char}
    (h : pyStrLtChars l1 l2 = true) : pyStrLtChars l2 l1 = false := by
  cases hc : pyStrLtChars l2 l1 with
  | false => rfl
  | true =>
    have := pyStrLtChars_trans _ _ _ h hc
    rw [pyStrLtChars_irrefl] at this
    exact absurd this (by simp)

theorem pyStrLe_total (a b : String) : pyStrLe a b = true ∨ pyStrLe b a = true := by
  unfold pyStrLe pyStrLt
  cases h : pyStrLtChars b.data a.data with
  | false => left; rfl
  | true =>
    right
    rw [pyStrLtChars_asymm h]
    rfl

theorem pyStrLe_trans {a b c : String}
    (hab : pyStrLe a b = true) (hbc : pyStrLe b c = true) : pyStrLe a c = true := by
  have hab' : pyStrLtChars b.data a.data = false := by
    rw [pyStrLe, pyStrLt, Bool.not_eq_true'] at hab
    exact hab
  have hbc' : pyStrLtChars c.data b.data = false := by
    rw [pyStrLe, pyStrLt, Bool.not_eq_true'] at hbc
    exact hbc
  rw [pyStrLe, pyStrLt, Bool.not_eq_true']
  cases hca : pyStrLtChars c.data a.data with
  | false => rfl
  | true =>
    exfalso
    rcases pyStrLtChars_tri b.data c.data with h | h | h
    · have := pyStrLtChars_trans _ _ _ h hca
      rw [hab'] at this
      exact Bool.false_ne_true this
    · rw [hbc'] at h
      exact Bool.false_ne_true h
    · rw [h] at hab'
      rw [hab'] at hca
      exact Bool.false_ne_true hca

/-- `rankLE` spelled out: makeable strictly precedes non-makeable, and
within a class the names compare lexicographically. -/
theorem rankLE_eq (a b : RankedCocktail) :
    rankLE a b = true ↔
      ((a.can_make = true ∧ b.can_make = false)
        ∨ (a.can_make = b.can_make ∧ pyStrLe a.name b.name = true)) := by
  unfold rankLE
  by_cases h : a.can_make = b.can_make
  · rw [if_pos h]
    constructor
    · intro hh
      right
      exact ⟨h, hh⟩
    · rintro (⟨h1, h2⟩ | ⟨h1, h2⟩)
      · rw [h1, h2] at h
        exact absurd h (by decide)
      · exact h2
  · rw [if_neg h]
    constructor
    · intro hh
      left
      refine ⟨hh, ?_⟩
      cases hb : b.can_make
      · rfl
      · rw [hh, hb] at h
        exact absurd rfl h
    · rintro (⟨h1, h2⟩ | ⟨h1, h2⟩)
      · exact h1
      · exact absurd h1 h

theorem rankLE_total (a b : RankedCocktail) : rankLE a b = true ∨ rankLE b a = true := by
  by_cases h : a.can_make = b.can_make
  · rcases pyStrLe_total a.name b.name with hh | hh
    · left
      rw [rankLE_eq]
      right
      exact ⟨h, hh⟩
    · right
      rw [rankLE_eq]
      right
      exact ⟨h.symm, hh⟩
  · cases ha : a.can_make
    · cases hb : b.can_make
      · exact absurd (ha.trans hb.symm) h
      · right
        rw [rankLE_eq]
        left
        exact ⟨hb, ha⟩
    · left
      rw [rankLE_eq]
      left
      refine ⟨ha, ?_⟩
      cases hb : b.can_make
      · rfl
      · exact absurd (ha.trans hb.symm) h

theorem rankLE_trans {a b c : RankedCocktail}
    (hab : rankLE a b = true) (hbc : rankLE b c = true) : rankLE a c = true := by
  rw [rankLE_eq] at hab hbc ⊢
  rcases hab with ⟨ha1, ha2⟩ | ⟨ha1, ha2⟩ <;> rcases hbc with ⟨hb1, hb2⟩ | ⟨hb1, hb2⟩
  · rw [ha2] at hb1
    exact absurd hb1 (by decide)
  · left
    exact ⟨ha1, hb1.symm.trans ha2⟩
  · left
    exact ⟨ha1.trans hb1, hb2⟩
  · right
    exact ⟨ha1.trans hb1, pyStrLe_trans ha2 hb2⟩

/-! ## Membership lemmas connecting the extracted dict to the slot sequence -/

theorem slotNames_lowered (slots : List Slot) :
    ∀ a ∈ slotNames slots, pyLower a = a := by
  intro a ha
  rcases List.mem_filterMap.1 ha with ⟨slot, _, hslot⟩
  cases hs : slot.1 with
  | none => simp [hs] at hslot
  | some raw =>
    simp only [hs] at hslot
    by_cases hraw : raw = ""
    · rw [if_pos hraw] at hslot
      cases hslot
    · rw [if_neg hraw] at hslot
      cases hslot
      exact pyLower_pyLower raw

theorem extract_loop_keys_mem (slots : List Slot) :
    ∀ (d : List (String × String)) (a : String),
      a ∈ (slots.foldl extractStep d).map Prod.fst
        ↔ a ∈ d.map Prod.fst ∨ a ∈ slotNames slots := by
  induction slots with
  | nil =>
    intro d a
    simp [slotNames]
  | cons slot rest ih =>
    intro d a
    rw [List.foldl_cons]
    rw [ih (extractStep d slot) a]
    have hnames : slotNames (slot :: rest)
        = (match slot.1 with
            | none => []
            | some raw => if raw = "" then [] else [pyLower raw]) ++ slotNames rest := by
      cases hs : slot.1 with
      | none => simp [slotNames, List.filterMap_cons, hs]
      | some raw =>
        by_cases hraw : raw = ""
        · simp [slotNames, List.filterMap_cons, hs, hraw]
        · simp [slotNames, List.filterMap_cons, hs, hraw]
    rw [hnames]
    cases hs : slot.1 with
    | none => simp [extractStep, hs]
    | some raw =>
      by_cases hraw : raw = ""
      · simp [extractStep, hs, hraw]
      · simp only [extractStep, hs, if_neg hraw, List.mem_append]
        rw [dictInsert_keys]
        by_cases hmem : pyLower raw ∈ d.map Prod.fst
        · rw [if_pos hmem]
          simp only [List.mem_singleton]
          constructor
          · rintro (h | h)
            · exact Or.inl h
            · exact Or.inr (Or.inr h)
          · rintro (h | h | h)
            · exact Or.inl h
            · subst h; exact Or.inl hmem
            · exact Or.inr h
        · rw [if_neg hmem]
          simp only [List.mem_append, List.mem_singleton]
          tauto
  
theorem extractIngredients_keys_mem (slots : List Slot) (a : String) :
    a ∈ (extractIngredients slots).map Prod.fst ↔ a ∈ slotNames slots := by
  rw [extractIngredients, extract_loop_keys_mem slots [] a]
  simp

/-! ## The cache-threading run agrees with the pure run -/

theorem Coherent_nil (net : Net) : Coherent net [] := by
  intro k d h
  simp [cacheFind] at h

theorem api_request_fst (net : Net) {cache : Cache} (key : ApiKey)
    (h : Coherent net cache) : (api_request net cache key).1 = netData net key := by
  unfold api_request netData
  cases hc : cacheFind cache key with
  | some d => rw [h key d hc]
  | none => cases net key <;> rfl

theorem api_request_coherent (net : Net) {cache : Cache} (key : ApiKey)
    (h : Coherent net cache) : Coherent net (api_request net cache key).2 := by
  unfold api_request
  cases hc : cacheFind cache key with
  | some d => exact h
  | none =>
    cases hn : net key with
    | none => exact h
    | some d =>
      intro k dd hk
      unfold cacheFind at hk
      by_cases hkey : key = k
      · rw [if_pos hkey] at hk
        injection hk with hdd
        subst hdd
        exact hkey ▸ hn
      · rw [if_neg hkey] at hk
        exact h k dd hk

theorem searchSt_spec (net : Net) (cache : Cache) (i : String) (h : Coherent net cache) :
    (searchSt net cache i).1 = search_cocktails_by_ingredient net i
      ∧ Coherent net (searchSt net cache i).2 := by
  unfold searchSt search_cocktails_by_ingredient
  refine ⟨?_, ?_⟩
  · rw [api_request_fst net (ApiKey.filterByIngredient i) h]
  · exact api_request_coherent net (ApiKey.filterByIngredient i) h

theorem detailsSt_spec (net : Net) (cache : Cache) (i : String) (h : Coherent net cache) :
    (detailsSt net cache i).1 = get_cocktail_details net i
      ∧ Coherent net (detailsSt net cache i).2 := by
  unfold detailsSt get_cocktail_details
  refine ⟨?_, ?_⟩
  · rw [api_request_fst net (ApiKey.lookupById i) h]
  · exact api_request_coherent net (ApiKey.lookupById i) h

theorem processDrinkSt_spec (net : Net) (db_inventory : List String)
    (acc : List (String × CocktailInfo)) (cache : Cache) (c : Drink)
    (h : Coherent net cache) :
    (processDrinkSt net db_inventory (acc, cache) c).1 = processDrink net db_inventory acc c
      ∧ Coherent net (processDrinkSt net db_inventory (acc, cache) c).2 := by
  have hd := detailsSt_spec net cache c.idDrink h
  simp only [processDrinkSt, processDrink]
  by_cases hm : c.idDrink ∈ acc.map Prod.fst
  · rw [if_pos hm, if_pos hm]
    exact ⟨rfl, h⟩
  · rw [if_neg hm, if_neg hm, hd.1]
    cases get_cocktail_details net c.idDrink with
    | none => exact ⟨rfl, hd.2⟩
    | some details => exact ⟨rfl, hd.2⟩

theorem foldl_processDrinkSt_spec (net : Net) (db_inventory : List String) :
    ∀ (stubs : List Drink) (acc : List (String × CocktailInfo)) (cache : Cache),
      Coherent net cache →
      (stubs.foldl (processDrinkSt net db_inventory) (acc, cache)).1
          = stubs.foldl (processDrink net db_inventory) acc
        ∧ Coherent net (stubs.foldl (processDrinkSt net db_inventory) (acc, cache)).2
  | [], acc, cache, h => ⟨rfl, h⟩
  | c :: stubs, acc, cache, h => by
    rw [List.foldl_cons, List.foldl_cons]
    have h1 := processDrinkSt_spec net db_inventory acc cache c h
    have h2 := foldl_processDrinkSt_spec net db_inventory stubs
      (processDrinkSt net db_inventory (acc, cache) c).1
      (processDrinkSt net db_inventory (acc, cache) c).2 h1.2
    rw [Prod.mk.eta] at h2
    rw [h2.1, h1.1]
    exact ⟨rfl, h2.2⟩

theorem ingredientStepSt_spec (net : Net) (db_inventory : List String)
    (acc : List (String × CocktailInfo)) (cache : Cache) (i : String)
    (h : Coherent net cache) :
    (ingredientStepSt net db_inventory (acc, cache) i).1
        = ingredientStep net db_inventory acc i
      ∧ Coherent net (ingredientStepSt net db_inventory (acc, cache) i).2 := by
  have hs := searchSt_spec net cache i h
  have hf := foldl_processDrinkSt_spec net db_inventory (searchSt net cache i).1 acc
    (searchSt net cache i).2 hs.2
  simp only [ingredientStepSt, ingredientStep]
  rw [← hs.1]
  exact hf

theorem foldl_ingredientStepSt_spec (net : Net) (db_inventory : List String) :
    ∀ (seeds : List String) (acc : List (String × CocktailInfo)) (cache : Cache),
      Coherent net cache →
      (seeds.foldl (ingredientStepSt net db_inventory) (acc, cache)).1
          = seeds.foldl (ingredientStep net db_inventory) acc
        ∧ Coherent net (seeds.foldl (ingredientStepSt net db_inventory) (acc, cache)).2
  | [], acc, cache, h => ⟨rfl, h⟩
  | i :: seeds, acc, cache, h => by
    rw [List.foldl_cons, List.foldl_cons]
    have h1 := ingredientStepSt_spec net db_inventory acc cache i h
    have h2 := foldl_ingredientStepSt_spec net db_inventory seeds
      (ingredientStepSt net db_inventory (acc, cache) i).1
      (ingredientStepSt net db_inventory (acc, cache) i).2 h1.2
    rw [Prod.mk.eta] at h2
    rw [h2.1, h1.1]
    exact ⟨rfl, h2.2⟩

theorem get_available_cocktailsSt_spec (net : Net) (cache : Cache) (db_inventory : List String)
    (h : Coherent net cache) :
    (get_available_cocktailsSt net cache db_inventory).1
        = get_available_cocktails net db_inventory
      ∧ Coherent net (get_available_cocktailsSt net cache db_inventory).2 := by
  unfold get_available_cocktailsSt get_available_cocktails
  by_cases hdb : db_inventory = []
  · rw [if_pos hdb, if_pos hdb]
    exact ⟨rfl, h⟩
  · rw [if_neg hdb, if_neg hdb]
    exact foldl_ingredientStepSt_spec net db_inventory db_inventory [] cache h

/-! ## Invariants of the aggregation loop: key uniqueness and skipping -/

theorem processDrink_keys_nodup (net : Net) (db_inventory : List String)
    (acc : List (String × CocktailInfo)) (c : Drink)
    (h : (acc.map Prod.fst).Nodup) :
    ((processDrink net db_inventory acc c).map Prod.fst).Nodup := by
  unfold processDrink
  by_cases hm : c.idDrink ∈ acc.map Prod.fst
  · rw [if_pos hm]
    exact h
  · rw [if_neg hm]
    cases get_cocktail_details net c.idDrink with
    | none => exact h
    | some details =>
      rw [List.map_append]
      refine List.Nodup.append h (List.nodup_singleton _) ?_
      intro a ha hb
      rcases List.mem_singleton.1 hb with rfl
      exact hm ha

theorem foldl_processDrink_keys_nodup (net : Net) (db_inventory : List String) :
    ∀ (stubs : List Drink) (acc : List (String × CocktailInfo)),
      (acc.map Prod.fst).Nodup →
      ((stubs.foldl (processDrink net db_inventory) acc).map Prod.fst).Nodup
  | [], _, h => h
  | c :: stubs, acc, h =>
    foldl_processDrink_keys_nodup net db_inventory stubs _
      (processDrink_keys_nodup net db_inventory acc c h)

theorem foldl_ingredientStep_keys_nodup (net : Net) (db_inventory : List String) :
    ∀ (seeds : List String) (acc : List (String × CocktailInfo)),
      (acc.map Prod.fst).Nodup →
      ((seeds.foldl (ingredientStep net db_inventory) acc).map Prod.fst).Nodup
  | [], _, h => h
  | i :: seeds, acc, h =>
    foldl_ingredientStep_keys_nodup net db_inventory seeds _
      (foldl_processDrink_keys_nodup net db_inventory _ acc h)

theorem get_available_cocktails_keys_nodup (net : Net) (db_inventory : List String) :
    ((get_available_cocktails net db_inventory).map Prod.fst).Nodup := by
  unfold get_available_cocktails
  by_cases hdb : db_inventory = []
  · rw [if_pos hdb]
    exact List.nodup_nil
  · rw [if_neg hdb]
    exact foldl_ingredientStep_keys_nodup net db_inventory db_inventory [] List.nodup_nil

theorem processDrink_not_mem (net : Net) (db_inventory : List String)
    (acc : List (String × CocktailInfo)) (c : Drink) {i : String}
    (habs : get_cocktail_details net i = none)
    (h : i ∉ acc.map Prod.fst) :
    i ∉ (processDrink net db_inventory acc c).map Prod.fst := by
  unfold processDrink
  by_cases hm : c.idDrink ∈ acc.map Prod.fst
  · rw [if_pos hm]
    exact h
  · rw [if_neg hm]
    cases hd : get_cocktail_details net c.idDrink with
    | none => exact h
    | some details =>
      rw [List.map_append]
      intro hmem
      rcases List.mem_append.1 hmem with hx | hx
      · exact h hx
      · rcases List.mem_singleton.1 hx with rfl
        rw [habs] at hd
        cases hd

theorem foldl_processDrink_not_mem (net : Net) (db_inventory : List String) {i : String}
    (habs : get_cocktail_details net i = none) :
    ∀ (stubs : List Drink) (acc : List (String × CocktailInfo)),
      i ∉ acc.map Prod.fst →
      i ∉ (stubs.foldl (processDrink net db_inventory) acc).map Prod.fst
  | [], _, h => h
  | c :: stubs, acc, h =>
    foldl_processDrink_not_mem net db_inventory habs stubs _
      (processDrink_not_mem net db_inventory acc c habs h)

theorem foldl_ingredientStep_not_mem (net : Net) (db_inventory : List String) {i : String}
    (habs : get_cocktail_details net i = none) :
    ∀ (seeds : List String) (acc : List (String × CocktailInfo)),
      i ∉ acc.map Prod.fst →
      i ∉ (seeds.foldl (ingredientStep net db_inventory) acc).map Prod.fst
  | [], _, h => h
  | s :: seeds, acc, h =>
    foldl_ingredientStep_not_mem net db_inventory habs seeds _
      (foldl_processDrink_not_mem net db_inventory habs _ acc h)

/-! ## Invariants of the inventory store -/

theorem add_to_inventory_lowered {db : Store} (user_id : Nat) (name : String)
    (h : ∀ item ∈ db, pyLower item.name = item.name) :
    ∀ item ∈ add_to_inventory db user_id name, pyLower item.name = item.name := by
  unfold add_to_inventory
  by_cases hm : db.any (fun item => item.name == pyLower name && item.user_id == user_id)
  · rw [if_pos hm]
    exact h
  · rw [if_neg hm]
    intro item hitem
    rcases List.mem_append.1 hitem with hx | hx
    · exact h item hx
    · rcases List.mem_singleton.1 hx with rfl
      exact pyLower_pyLower name

theorem add_common_ingredients_lowered {db : Store} (user_id : Nat) (items : List String)
    (h : ∀ item ∈ db, pyLower item.name = item.name) :
    ∀ item ∈ add_common_ingredients db user_id items, pyLower item.name = item.name := by
  induction items generalizing db with
  | nil => exact h
  | cons x xs ih =>
    exact ih (add_to_inventory_lowered user_id x h)

theorem removeFirst_subset (p : InventoryRow → Bool) :
    ∀ (db : Store) (item : InventoryRow), item ∈ removeFirst db p → item ∈ db
  | [], _, h => absurd h (by simp [removeFirst])
  | x :: xs, item, h => by
    unfold removeFirst at h
    by_cases hp : p x
    · rw [if_pos hp] at h
      exact List.mem_cons_of_mem x h
    · rw [if_neg hp] at h
      rcases List.mem_cons.1 h with hx | hx
      · exact hx ▸ List.mem_cons_self x xs
      · exact List.mem_cons_of_mem x (removeFirst_subset p xs item hx)

theorem remove_from_inventory_lowered {db : Store} (user_id : Nat) (name : String)
    (h : ∀ item ∈ db, pyLower item.name = item.name) :
    ∀ item ∈ remove_from_inventory db user_id name, pyLower item.name = item.name :=
  fun item hitem => h item (removeFirst_subset _ db item hitem)

theorem initialize_demo_lowered {db : Store} (user_id : Nat)
    (h : ∀ item ∈ db, pyLower item.name = item.name) :
    ∀ item ∈ initialize_demo db user_id, pyLower item.name = item.name := by
  unfold initialize_demo
  intro item hitem
  rcases List.mem_append.1 hitem with hx | hx
  · exact h item (List.mem_filter.1 hx).1
  · rcases List.mem_map.1 hx with ⟨n, _, rfl⟩
    exact pyLower_pyLower n

theorem reachable_store_lowered {db : Store} (h : ReachableStore db) :
    ∀ item ∈ db, pyLower item.name = item.name := by
  induction h with
  | empty => intro item hitem; cases hitem
  | add h ih => exact add_to_inventory_lowered _ _ ih
  | addCommon h ih => exact add_common_ingredients_lowered _ _ ih
  | remove h ih => exact remove_from_inventory_lowered _ _ ih
  | demo h ih => exact initialize_demo_lowered _ ih

/-! ## The claims -/

/-- C1: for every inventory and every recipe payload, the availability
evaluation sets `can_make = true` iff every normalized ingredient name
extracted from the payload is a member of the inventory — equivalently,
iff the computed missing collection is empty. -/
theorem claim1_can_make_iff (db_inventory : List String) (details : Drink) :
    ((evaluateDrink db_inventory details).can_make = true
        ↔ ∀ name ∈ (extractIngredients details.slots).map Prod.fst, name ∈ db_inventory)
  ∧ ((evaluateDrink db_inventory details).can_make = true
        ↔ (evaluateDrink db_inventory details).missing = ∅) := by
  have hmiss : (evaluateDrink db_inventory details).missing
      = computeMissing db_inventory (extractIngredients details.slots) := rfl
  have hcan : (evaluateDrink db_inventory details).can_make
      = ((computeMissing db_inventory (extractIngredients details.slots)).card == 0) := rfl
  have hempty : (evaluateDrink db_inventory details).can_make = true
      ↔ (evaluateDrink db_inventory details).missing = ∅ := by
    rw [hcan, hmiss, beq_iff_eq, Finset.card_eq_zero]
  refine ⟨?_, hempty⟩
  rw [hempty, hmiss, computeMissing_empty_iff]
  constructor
  · intro h name hname
    rw [← extractIngredients_keys_lowered details.slots name hname]
    exact h name hname
  · intro h name hname
    rw [extractIngredients_keys_lowered details.slots name hname]
    exact h name hname

/-- C2 (amended): the missing collection is the unordered set holding
exactly the distinct normalized ingredient names of the payload that are
absent from the inventory — the underlying set of the spec's ordered
restriction; because the source accumulates it in a Python `set` over the
deduplicated dict keys, neither the original presentation order nor
duplicate occurrences are preserved. -/
theorem claim2_missing_set (db_inventory : List String) (details : Drink) :
    (evaluateDrink db_inventory details).missing
      = (specMissingSeq db_inventory details.slots).toFinset := by
  have hmiss : (evaluateDrink db_inventory details).missing
      = computeMissing db_inventory (extractIngredients details.slots) := rfl
  rw [hmiss, computeMissing_eq]
  ext a
  rw [List.mem_toFinset, List.mem_toFinset, List.mem_filter, specMissingSeq, List.mem_filter]
  constructor
  · rintro ⟨hk, hp⟩
    have hl := extractIngredients_keys_lowered details.slots a hk
    rw [hl] at hp
    exact ⟨(extractIngredients_keys_mem details.slots a).1 hk, hp⟩
  · rintro ⟨hn, hp⟩
    have hl := slotNames_lowered details.slots a hn
    refine ⟨(extractIngredients_keys_mem details.slots a).2 hn, ?_⟩
    rw [hl]
    exact hp

/-- C2 (counterexample): on the empty inventory and a payload listing the
same normalized name "gin" in two slots, the claimed ordered restriction
is `["gin", "gin"]` (two entries) while the computed missing collection
holds "gin" once — as collections of elements they differ, so the missing
collection is not the order-preserving restriction of the original
ingredient sequence. -/
theorem claim2_counterexample :
    ((evaluateDrink [] drinkDupGin).missing.val
        ≠ (↑(specMissingSeq [] drinkDupGin.slots) : Multiset String))
  ∧ (evaluateDrink [] drinkDupGin).missing.card = 1
  ∧ (specMissingSeq [] drinkDupGin.slots).length = 2 :=
  ⟨by decide, by decide, by decide⟩

/-- C3 (counterexample): evaluating inventory `{"Rum"}` against a recipe
listing ingredient `"  RUM "` yields `can_make = false`, not `true` as
claimed: the source lower-cases ingredient names but never trims them, and
inventory membership is exact string comparison. -/
theorem claim3_counterexample :
    (evaluateDrink ["Rum"]
      { idDrink := "17170", strDrink := "T", strDrinkThumb := "", strInstructions := "",
        strGlass := "", slots := [(some "  RUM ", some "")] }).can_make = false := by
  decide

/-- C3 (amended): ingredient-name normalization during availability
evaluation lower-cases the raw name and applies no other transformation —
in particular it does not trim surrounding whitespace (only measure text
is stripped); membership is exact string equality against the stored
inventory names, so `{"rum"}` against `"RUM"` is makeable while `{"Rum"}`
against `"  RUM "` is not. -/
theorem claim3_amended :
    (∀ (raw : String) (m : Option String),
        extractIngredients [(some raw, m)]
          = if raw = "" then [] else [(pyLower raw, measureOf m)])
  ∧ (evaluateDrink ["rum"]
      { idDrink := "2", strDrink := "T", strDrinkThumb := "", strInstructions := "",
        strGlass := "", slots := [(some "RUM", some "")] }).can_make = true
  ∧ (evaluateDrink ["Rum"]
      { idDrink := "3", strDrink := "T", strDrinkThumb := "", strInstructions := "",
        strGlass := "", slots := [(some "  RUM ", some "")] }).can_make = false := by
  refine ⟨?_, by decide, by decide⟩
  intro raw m
  by_cases hraw : raw = ""
  · rw [if_pos hraw]
    simp [extractIngredients, extractStep, hraw]
  · rw [if_neg hraw]
    simp [extractIngredients, extractStep, hraw, dictInsert]

/-- C4: the sort shared by the aggregation endpoints permutes the
evaluated recipe list into one sorted by the key `(not can_make, name)`:
makeable recipes first, then case-sensitive lexicographic name order
within each class; on the spec's example, makeable "Bee's Knees" and
"Daiquiri" precede non-makeable "Aviation", in that order. -/
theorem claim4_ranking :
    (∀ result : List RankedCocktail,
        (rankCocktails result).Perm result ∧ (rankCocktails result).Pairwise RankLe)
  ∧ (∀ a b : RankedCocktail,
        RankLe a b ↔ ((a.can_make = true ∧ b.can_make = false)
          ∨ (a.can_make = b.can_make ∧ pyStrLe a.name b.name = true)))
  ∧ ((rankCocktails
        [ { id := "1", name := "Daiquiri", instructions := "", image_url := "", glass := "",
            ingredients := [], can_make := true, missing := ∅ },
          { id := "2", name := "Aviation", instructions := "", image_url := "", glass := "",
            ingredients := [], can_make := false, missing := ∅ },
          { id := "3", name := "Bee\x27s Knees", instructions := "", image_url := "",
            glass := "", ingredients := [], can_make := true, missing := ∅ } ]).map
        RankedCocktail.name
      = ["Bee\x27s Knees", "Daiquiri", "Aviation"]) := by
  haveI htotal : IsTotal RankedCocktail RankLe := ⟨rankLE_total⟩
  haveI htrans : IsTrans RankedCocktail RankLe := ⟨fun a b c hab hbc => rankLE_trans hab hbc⟩
  refine ⟨?_, rankLE_eq, by decide⟩
  intro result
  exact ⟨List.perm_insertionSort RankLe result, List.sorted_insertionSort RankLe result⟩

/-- C5: in the availability aggregation no recipe identifier is ever
listed twice — the identifier sequence of the output is duplicate-free for
every adapter and inventory; in the example where both "lime juice" and
"rum" list the Daiquiri (id 11006), the output holds that id exactly
once. -/
theorem claim5_dedup :
    (∀ (net : Net) (db_inventory : List String),
        ((get_available_cocktails net db_inventory).map Prod.fst).Nodup)
  ∧ ((get_available_cocktails exNetDedup ["lime juice", "rum"]).map Prod.fst = ["11006"])
  ∧ (((get_available_cocktails exNetDedup ["lime juice", "rum"]).map Prod.fst).count "11006"
      = 1) :=
  ⟨get_available_cocktails_keys_nodup, by decide, by decide⟩

/-- C6: when the adapter request for the "gin" ingredient filter fails,
that sub-request contributes zero recipes and nothing propagates: the
aggregation over `{"gin", "rum"}` returns exactly the recipes obtained by
processing the "rum" lookup alone. -/
theorem claim6_resilience (net : Net)
    (hfail : net (ApiKey.filterByIngredient "gin") = none) :
    get_available_cocktails net ["gin", "rum"]
      = (search_cocktails_by_ingredient net "rum").foldl
          (processDrink net ["gin", "rum"]) [] := by
  have hsearch : search_cocktails_by_ingredient net "gin" = [] := by
    unfold search_cocktails_by_ingredient netData
    rw [hfail]
  unfold get_available_cocktails
  rw [if_neg (by simp)]
  rw [show (["gin", "rum"] : List String).foldl (ingredientStep net ["gin", "rum"]) []
      = ingredientStep net ["gin", "rum"]
          (ingredientStep net ["gin", "rum"] [] "gin") "rum" from rfl]
  rw [show ingredientStep net ["gin", "rum"] [] "gin"
      = (search_cocktails_by_ingredient net "gin").foldl
          (processDrink net ["gin", "rum"]) [] from rfl]
  rw [hsearch]
  rfl

/-- Witness for C6: a concrete adapter whose "gin" filter request fails
while "rum" lists the Mojito; the aggregation equals the rum contribution
and still contains the Mojito's id. -/
theorem claim6_witness :
    exNetGinFails (ApiKey.filterByIngredient "gin") = none
  ∧ (get_available_cocktails exNetGinFails ["gin", "rum"]
      = (search_cocktails_by_ingredient exNetGinFails "rum").foldl
          (processDrink exNetGinFails ["gin", "rum"]) [])
  ∧ "11000" ∈ (get_available_cocktails exNetGinFails ["gin", "rum"]).map Prod.fst :=
  ⟨rfl, claim6_resilience exNetGinFails rfl, by decide⟩

/-- C7: an identifier whose detail lookup resolves to absent is skipped
silently — it never appears among the identifiers of the aggregation
output, for any adapter and inventory. -/
theorem claim7_skip_absent (net : Net) (db_inventory : List String) (cocktail_id : String)
    (habs : get_cocktail_details net cocktail_id = none) :
    cocktail_id ∉ (get_available_cocktails net db_inventory).map Prod.fst := by
  unfold get_available_cocktails
  by_cases hdb : db_inventory = []
  · rw [if_pos hdb]
    simp
  · rw [if_neg hdb]
    exact foldl_ingredientStep_not_mem net db_inventory habs db_inventory [] (by simp)

/-- Witness for C7: the adapter lists id "99999" for "rum" but its detail
lookup returns absent, so the output identifier list is empty. -/
theorem claim7_witness :
    get_cocktail_details exNetAbsent "99999" = none
  ∧ "99999" ∉ (get_available_cocktails exNetAbsent ["rum"]).map Prod.fst
  ∧ (get_available_cocktails exNetAbsent ["rum"]).map Prod.fst = [] :=
  ⟨rfl, claim7_skip_absent exNetAbsent ["rum"] "99999" rfl, by decide⟩

/-- C8: with unchanged adapter data, running the availability aggregation
twice over the same inventory — the second run starting from the response
cache the first run left behind — yields identical output, and hence an
identical ranked response. -/
theorem claim8_idempotent (net : Net) (cache : Cache) (db_inventory : List String)
    (h : Coherent net cache) :
    ((get_available_cocktailsSt net cache db_inventory).1
        = (get_available_cocktailsSt net
            (get_available_cocktailsSt net cache db_inventory).2 db_inventory).1)
  ∧ (rankCocktails (toResponse (get_available_cocktailsSt net cache db_inventory).1)
        = rankCocktails (toResponse
            (get_available_cocktailsSt net
              (get_available_cocktailsSt net cache db_inventory).2 db_inventory).1)) := by
  have h1 := get_available_cocktailsSt_spec net cache db_inventory h
  have h2 := get_available_cocktailsSt_spec net
    (get_available_cocktailsSt net cache db_inventory).2 db_inventory h1.2
  rw [h1.1, h2.1]
  exact ⟨rfl, rfl⟩

/-- Witness for C8 on a concrete adapter, inventory and the empty starting
cache. -/
theorem claim8_witness :
    (get_available_cocktailsSt exNetIdem [] ["rum"]).1
      = (get_available_cocktailsSt exNetIdem
          (get_available_cocktailsSt exNetIdem [] ["rum"]).2 ["rum"]).1 :=
  (claim8_idempotent exNetIdem [] ["rum"] (Coherent_nil exNetIdem)).1

/-- C9: every mutating inventory operation stores only lower-cased names
(single add, bulk add, demo initialization), removal lower-cases its
argument before matching, and hence on every reachable store all names
returned by `get_current_inventory` are already lower-case. -/
theorem claim9_store_lowered {db : Store} (h : ReachableStore db) :
    (∀ item ∈ db, pyLower item.name = item.name)
  ∧ (∀ (user_id : Nat) (name : String),
        name ∈ get_current_inventory db user_id → pyLower name = name)
  ∧ (∀ (user_id : Nat) (item_name : String),
        remove_from_inventory db user_id item_name
          = remove_from_inventory db user_id (pyLower item_name)) := by
  refine ⟨reachable_store_lowered h, ?_, ?_⟩
  · intro uid name hname
    rcases List.mem_map.1 hname with ⟨item, hitem, rfl⟩
    exact reachable_store_lowered h item (List.mem_filter.1 hitem).1
  · intro uid item_name
    unfold remove_from_inventory
    rw [pyLower_pyLower]

/-- Witness for C9: after adding "Gin" for user 7 to the empty store the
inventory reads back as the lower-cased `["gin"]`, and the name is
lower-case by the reachability theorem. -/
theorem claim9_witness :
    pyLower "gin" = "gin"
  ∧ get_current_inventory (add_to_inventory [] 7 "Gin") 7 = ["gin"] :=
  ⟨(claim9_store_lowered (@ReachableStore.add [] 7 "Gin" ReachableStore.empty)).2.1 7 "gin"
      (by decide),
    by decide⟩

/-- C10: within one recipe evaluation the ingredient entries are keyed by
lower-cased name in an insertion-ordered dict, so a payload listing the
same normalized name in two slots yields a single entry (at the earlier
position, holding the later slot's measure), the key list is always
duplicate-free, and the missing set only holds names drawn from those
keys. -/
theorem claim10_duplicate_slots :
    (∀ slots : List Slot, ((extractIngredients slots).map Prod.fst).Nodup)
  ∧ (extractIngredients [(some "Gin", some "1 oz"), (some "GIN", some "2 oz")]
      = [("gin", "2 oz")])
  ∧ (∀ (db_inventory : List String) (details : Drink),
        (evaluateDrink db_inventory details).missing
          ⊆ ((extractIngredients details.slots).map Prod.fst).toFinset) := by
  refine ⟨extractIngredients_keys_nodup, by decide, ?_⟩
  intro db_inventory details
  rw [show (evaluateDrink db_inventory details).missing
      = computeMissing db_inventory (extractIngredients details.slots) from rfl,
    computeMissing_eq]
  intro a ha
  rw [List.mem_toFinset] at ha ⊢
  exact List.mem_of_mem_filter ha
